import Mathlib

/-!
Verification of the Ultimate Tic-Tac-Toe engine: a shallow embedding of the
rules engine (`gameLogic`), the heuristic AI (`aiLogic`), and the move
reducer of the `Game` component, together with theorems settling the
specification claims.

Boards are embedded as functions `Fin 9 → Option Player` (the source uses
9-element arrays indexed 0..8); the per-iteration `Math.random()` draws of
the AI are embedded as explicitly injected values (`noise : Nat → ℚ` for the
per-move score noise, `pick : Nat` for the final index draw), following the
design note that randomness is an injected, seedable source.
-/

namespace UltimateTTT

/-- The two marks, `Player.X` and `Player.O` (types.ts `enum Player`). -/
inductive Player where
  | X
  | O
deriving DecidableEq, Repr

/-- The `currentPlayer === Player.X ? Player.O : Player.X` flip used
throughout the source. -/
def Player.other : Player → Player
  | Player.X => Player.O
  | Player.O => Player.X

/-- A cell holds a mark or `null` (types.ts `CellValue`). -/
abbrev CellValue := Option Player

/-- One small 3×3 board, index 0–8 row-major (types.ts `SmallBoardState`). -/
abbrev SmallBoardState := Fin 9 → CellValue

/-- The nine small boards (types.ts `GameBoardState`). -/
abbrev GameBoardState := Fin 9 → SmallBoardState

/-- Status of a small board (types.ts `SmallBoardStatus`); also the shape of
`checkGlobalWinner`'s result. -/
structure SmallBoardStatus where
  winner : Option Player
  isDraw : Bool
deriving DecidableEq, Repr

/-- Game modes (types.ts `GameMode`). -/
inductive GameMode where
  | PvP
  | PvCPU
  | PvOnline
deriving DecidableEq, Repr

/-- AI difficulty tiers (types.ts `AiDifficulty`). -/
inductive AiDifficulty where
  | Beginner
  | Intermediate
  | Advanced
deriving DecidableEq, Repr

/-- Online role: `'HOST' | 'GUEST' | null` (types.ts `OnlineRole`). -/
inductive OnlineRole where
  | HOST
  | GUEST
  | NULL
deriving DecidableEq, Repr

/-- Online connection state (types.ts `OnlineState`). -/
inductive OnlineState where
  | IDLE
  | HOSTING
  | JOINING
  | CONNECTED
  | DISCONNECTED
deriving DecidableEq, Repr

/-- A move: `(boardIndex, cellIndex)`. -/
abbrev Move := Fin 9 × Fin 9

/-- History snapshot taken before a move is applied (types.ts
`GameHistoryItem`). -/
structure GameHistoryItem where
  board : GameBoardState
  smallBoardStatuses : Fin 9 → SmallBoardStatus
  currentPlayer : Player
  nextBoardIndex : Option (Fin 9)
  lastMove : Option Move
deriving DecidableEq

/-- The canonical game state (types.ts `GameState`). `nextBoardIndex` is the
spec's `forcedBoard`; `globalWinner`/`isGlobalDraw` are the spec's
`winner`/`isDraw`. -/
structure GameState where
  board : GameBoardState
  smallBoardStatuses : Fin 9 → SmallBoardStatus
  currentPlayer : Player
  nextBoardIndex : Option (Fin 9)
  globalWinner : Option Player
  isGlobalDraw : Bool
  history : List GameHistoryItem
  moveCount : Nat
  gameMode : GameMode
  aiDifficulty : AiDifficulty
deriving DecidableEq

/-- The 8 winning triples of `gameLogic.ts` (3 rows, 3 columns, 2 diagonals),
in the listed scan order. -/
def WINNING_COMBINATIONS : List (Fin 9 × Fin 9 × Fin 9) :=
  [(0, 1, 2), (3, 4, 5), (6, 7, 8),
   (0, 3, 6), (1, 4, 7), (2, 5, 8),
   (0, 4, 8), (2, 4, 6)]

/-- The triple-scan loop shared by `checkSmallBoardStatus` and
`checkGlobalWinner`: return the shared mark of the first combo whose three
positions are equal and non-empty (`cells[a] && cells[a] === cells[b] &&
cells[a] === cells[c]`). -/
def scanWinner (cells : Fin 9 → Option Player) :
    List (Fin 9 × Fin 9 × Fin 9) → Option Player
  | [] => none
  | (a, b, c) :: rest =>
    match cells a with
    | some p => if cells b = some p ∧ cells c = some p then some p
                else scanWinner cells rest
    | none => scanWinner cells rest

/-- The `cells.every((cell) => cell !== null)` full-board test. -/
def isFull (cells : Fin 9 → Option Player) : Bool :=
  (List.finRange 9).all fun i => (cells i).isSome

/-- gameLogic.ts `checkSmallBoardStatus`: winner by triple scan, else draw if
full, else in progress. -/
def checkSmallBoardStatus (cells : SmallBoardState) : SmallBoardStatus :=
  match scanWinner cells WINNING_COMBINATIONS with
  | some p => ⟨some p, false⟩
  | none => if isFull cells then ⟨none, true⟩ else ⟨none, false⟩

/-- The `statuses.every((s) => s.winner !== null || s.isDraw)` test of
`checkGlobalWinner`. -/
def allDecided (statuses : Fin 9 → SmallBoardStatus) : Bool :=
  (List.finRange 9).all fun i => (statuses i).winner.isSome || (statuses i).isDraw

/-- gameLogic.ts `checkGlobalWinner`: the identical triple scan over the
per-board winners, else a global draw when every status is decided. -/
def checkGlobalWinner (statuses : Fin 9 → SmallBoardStatus) : SmallBoardStatus :=
  match scanWinner (fun i => (statuses i).winner) WINNING_COMBINATIONS with
  | some p => ⟨some p, false⟩
  | none => if allDecided statuses then ⟨none, true⟩ else ⟨none, false⟩

/-- gameLogic.ts `createInitialBoard`: 9×9 `null`s. -/
def createInitialBoard : GameBoardState := fun _ _ => none

/-- gameLogic.ts `createInitialStatuses`. -/
def createInitialStatuses : Fin 9 → SmallBoardStatus := fun _ => ⟨none, false⟩

/-- The moves contributed by one small board in `getValidMoves`: its empty
cells in ascending cell order, provided the board is neither won nor drawn. -/
def movesInBoard (s : GameState) (bIdx : Fin 9) : List Move :=
  if (s.smallBoardStatuses bIdx).winner = none ∧ (s.smallBoardStatuses bIdx).isDraw = false then
    ((List.finRange 9).filter fun cIdx => decide (s.board bIdx cIdx = none)).map
      fun cIdx => (bIdx, cIdx)
  else []

/-- gameLogic.ts `getValidMoves`: empty when a global winner exists;
restricted to `nextBoardIndex` when that board is undecided; otherwise the
empty cells of every undecided board, in ascending index order. -/
def getValidMoves (s : GameState) : List Move :=
  if s.globalWinner.isSome then [] else
  let targetBoards : List (Fin 9) :=
    match s.nextBoardIndex with
    | some n =>
      if (s.smallBoardStatuses n).winner = none ∧ (s.smallBoardStatuses n).isDraw = false then
        [n]
      else List.finRange 9
    | none => List.finRange 9
  targetBoards.flatMap (movesInBoard s)

/-- The `onlineRole === 'HOST' ? Player.X : Player.O` assignment used by the
reducer's online turn check. -/
def myPlayer (role : OnlineRole) : Player :=
  if role = OnlineRole.HOST then Player.X else Player.O

/-- The conjunction of all validation checks of `handleCellClick`
(Game.tsx): the online turn rule, no global winner, empty target cell, the
forced-board constraint, and an undecided target board. A click mutates the
state exactly when this holds. -/
def moveAccepted (role : OnlineRole) (isRemote : Bool) (s : GameState)
    (boardIndex cellIndex : Fin 9) : Prop :=
  ¬(s.gameMode = GameMode.PvOnline ∧ isRemote = false ∧
      s.currentPlayer ≠ myPlayer role) ∧
  s.globalWinner = none ∧
  s.board boardIndex cellIndex = none ∧
  (s.nextBoardIndex = none ∨ s.nextBoardIndex = some boardIndex) ∧
  (s.smallBoardStatuses boardIndex).winner = none ∧
  (s.smallBoardStatuses boardIndex).isDraw = false

instance (role : OnlineRole) (isRemote : Bool) (s : GameState)
    (boardIndex cellIndex : Fin 9) :
    Decidable (moveAccepted role isRemote s boardIndex cellIndex) := by
  unfold moveAccepted; infer_instance

/-- The state returned by `handleCellClick` on the success path: place the
mark, recompute the small-board status and the global status, send the
opponent to `cellIndex` unless that board is decided, flip the turn, append
the pre-move snapshot to history, bump `moveCount`. -/
def applySuccessfulMove (lastMove : Option Move) (s : GameState)
    (boardIndex cellIndex : Fin 9) : GameState :=
  let newBoard : GameBoardState := fun bIdx =>
    if bIdx = boardIndex then
      (fun cIdx => if cIdx = cellIndex then some s.currentPlayer else s.board bIdx cIdx)
    else s.board bIdx
  let newSmallBoardStatus := checkSmallBoardStatus (newBoard boardIndex)
  let newSmallBoardStatuses : Fin 9 → SmallBoardStatus := fun i =>
    if i = boardIndex then newSmallBoardStatus else s.smallBoardStatuses i
  let g := checkGlobalWinner newSmallBoardStatuses
  let newNextBoardIndex : Option (Fin 9) :=
    if (newSmallBoardStatuses cellIndex).winner.isSome ∨
        (newSmallBoardStatuses cellIndex).isDraw then none
    else some cellIndex
  { s with
    board := newBoard
    smallBoardStatuses := newSmallBoardStatuses
    currentPlayer := s.currentPlayer.other
    nextBoardIndex := newNextBoardIndex
    globalWinner := g.winner
    isGlobalDraw := g.isDraw
    history := s.history ++ [⟨s.board, s.smallBoardStatuses, s.currentPlayer,
      s.nextBoardIndex, lastMove⟩]
    moveCount := s.moveCount + 1 }

/-- Game.tsx `handleCellClick` reducer (the spec's `applyMove`): each failed
validation returns `prevState` unchanged; otherwise the move is applied.
`lastMove` is the component's last-move cell recorded into the history
snapshot; `isRemote` marks moves arriving over the network. -/
def handleCellClick (role : OnlineRole) (lastMove : Option Move)
    (isRemote : Bool) (s : GameState) (boardIndex cellIndex : Fin 9) : GameState :=
  if s.gameMode = GameMode.PvOnline ∧ isRemote = false ∧
      s.currentPlayer ≠ myPlayer role then s
  else if s.globalWinner.isSome then s
  else if (s.board boardIndex cellIndex).isSome then s
  else if s.nextBoardIndex ≠ none ∧ s.nextBoardIndex ≠ some boardIndex then s
  else if (s.smallBoardStatuses boardIndex).winner.isSome ∨
      (s.smallBoardStatuses boardIndex).isDraw then s
  else applySuccessfulMove lastMove s boardIndex cellIndex

/-- The initial `useState` value of the `Game` component. -/
def initialGameState : GameState where
  board := createInitialBoard
  smallBoardStatuses := createInitialStatuses
  currentPlayer := Player.X
  nextBoardIndex := none
  globalWinner := none
  isGlobalDraw := false
  history := []
  moveCount := 0
  gameMode := GameMode.PvP
  aiDifficulty := AiDifficulty.Beginner

/-- States reachable from the initial state through the `handleCellClick`
reducer (the spec's `applyMove`), under any role, history cell, origin and
move coordinates; rejected moves leave the state unchanged. -/
inductive Reachable : GameState → Prop where
  | init : Reachable initialGameState
  | step (role : OnlineRole) (lastMove : Option Move) (isRemote : Bool)
      (bi ci : Fin 9) {s : GameState} :
      Reachable s → Reachable (handleCellClick role lastMove isRemote s bi ci)

/-- aiLogic.ts `canWinBoard`: the first cell index at which placing
`player`'s mark into an empty cell wins the small board, or `null`. -/
def canWinBoard (board : SmallBoardState) (player : Player) : Option (Fin 9) :=
  (List.finRange 9).find? fun i =>
    decide (board i = none) &&
    decide ((checkSmallBoardStatus
      (fun j => if j = i then some player else board j)).winner = some player)

/-- The corner indices `[0, 2, 6, 8]` of aiLogic.ts. -/
def cornerIndices : List (Fin 9) := [0, 2, 6, 8]

/-- aiLogic.ts `evaluateMove`: the Advanced-tier integer base score of one
candidate move (before noise). -/
def evaluateMove (s : GameState) (move : Move) : Int :=
  let opponent := s.currentPlayer.other
  let targetBoardIndex := move.1
  let currentSmallBoard : SmallBoardState := fun j =>
    if j = move.2 then some s.currentPlayer else s.board targetBoardIndex j
  let boardStatusResult := checkSmallBoardStatus currentSmallBoard
  let isBoardWon := boardStatusResult.winner = some s.currentPlayer
  let winScore : Int :=
    if isBoardWon then
      100 +
      (if (checkGlobalWinner fun i =>
            if i = targetBoardIndex then boardStatusResult
            else s.smallBoardStatuses i).winner = some s.currentPlayer
       then 10000 else 0) +
      (if targetBoardIndex = (4 : Fin 9) then 20
       else if targetBoardIndex ∈ cornerIndices then 10 else 0)
    else 0
  let blockScore : Int :=
    if canWinBoard (s.board targetBoardIndex) opponent = some move.2 then 80 else 0
  let nextBoardStatus := s.smallBoardStatuses move.2
  let destScore : Int :=
    if nextBoardStatus.winner.isSome ∨ nextBoardStatus.isDraw then -50
    else if (canWinBoard (s.board move.2) opponent).isSome then -100 else 0
  let cellScore : Int :=
    if move.2 = (4 : Fin 9) then 5
    else if move.2 ∈ cornerIndices then 3 else 0
  winScore + blockScore + destScore + cellScore

/-- Pair each valid move with its noisy score `evaluateMove + noise i`, where
`i` is the move's position in the valid-move list (each loop iteration of the
Advanced tier draws one fresh `Math.random() * 5`). -/
def scoreMoves (s : GameState) (noise : Nat → ℚ) : Nat → List Move → List (Move × ℚ)
  | _, [] => []
  | i, m :: rest =>
    (m, (evaluateMove s m : ℚ) + noise i) :: scoreMoves s noise (i + 1) rest

/-- The scored valid-move list of the Advanced tier. -/
def tier3Scored (noise : Nat → ℚ) (s : GameState) : List (Move × ℚ) :=
  scoreMoves s noise 0 (getValidMoves s)

/-- One iteration of the Advanced-tier loop: a strictly greater noisy score
resets `bestMoves` to the single new move; a score within 0.1 of the running
best is appended; anything else is dropped. `none` is the initial
`-Infinity` best, beaten by every finite score. -/
def advStep (acc : Option ℚ × List Move) (p : Move × ℚ) : Option ℚ × List Move :=
  match acc.1 with
  | none => (some p.2, [p.1])
  | some best =>
    if p.2 > best then (some p.2, [p.1])
    else if |p.2 - best| < 1 / 10 then (acc.1, acc.2 ++ [p.1])
    else acc

/-- The final `bestMoves` list of the Advanced tier. -/
def tier3Candidates (noise : Nat → ℚ) (s : GameState) : List Move :=
  ((tier3Scored noise s).foldl advStep (none, [])).2

/-- aiLogic.ts `getAiMove`, with the `Math.random()` draws injected: `noise`
supplies the per-move Advanced-tier score noise and `pick` the final
uniform index draw (`Math.floor(Math.random() * length)` becomes
`pick % length`). -/
def getAiMove (noise : Nat → ℚ) (pick : Nat) (s : GameState) : Option Move :=
  let validMoves := getValidMoves s
  if validMoves.isEmpty then none
  else
    match s.aiDifficulty with
    | AiDifficulty.Beginner => validMoves.get? (pick % validMoves.length)
    | AiDifficulty.Intermediate =>
      match validMoves.find? (fun m =>
          decide (canWinBoard (s.board m.1) s.currentPlayer = some m.2)) with
      | some m => some m
      | none =>
        match validMoves.find? (fun m =>
            decide (canWinBoard (s.board m.1) s.currentPlayer.other = some m.2)) with
        | some m => some m
        | none => validMoves.get? (pick % validMoves.length)
    | AiDifficulty.Advanced =>
      let bestMoves := tier3Candidates noise s
      if bestMoves.isEmpty then validMoves.head?
      else bestMoves.get? (pick % bestMoves.length)

/-- The component-level state relevant to the online match coordinator:
the game state plus the `onlineState`, `onlineRole` and `lastMove`
`useState` hooks of the `Game` component. -/
structure CoordState where
  gameState : GameState
  onlineState : OnlineState
  onlineRole : OnlineRole
  lastMove : Option Move
deriving DecidableEq

/-- Game.tsx `isInteractionAllowed` for the board grid: interaction is
blocked on the CPU's turn, on the remote opponent's turn, and whenever an
online session is not in the `CONNECTED` state. -/
def isInteractionAllowed (c : CoordState) : Prop :=
  ¬(c.gameState.gameMode = GameMode.PvCPU ∧ c.gameState.currentPlayer = Player.O) ∧
  (c.gameState.gameMode = GameMode.PvOnline →
    ¬(c.onlineRole = OnlineRole.HOST ∧ c.gameState.currentPlayer = Player.O) ∧
    ¬(c.onlineRole = OnlineRole.GUEST ∧ c.gameState.currentPlayer = Player.X) ∧
    c.onlineState = OnlineState.CONNECTED)

instance (c : CoordState) : Decidable (isInteractionAllowed c) := by
  unfold isInteractionAllowed; infer_instance

/-- A locally-originated click on cell `(bi, ci)` as wired in Game.tsx: the
`SmallBoard` button is disabled on occupied cells, non-target boards and
completed boards; `onCellClick` is a no-op unless interaction is allowed,
and otherwise runs the `handleCellClick` reducer (recording `lastMove` when
the reducer accepts the move). -/
def uiClick (c : CoordState) (bi ci : Fin 9) : CoordState :=
  let g := c.gameState
  let isComplete := (g.smallBoardStatuses bi).winner.isSome ∨
    (g.smallBoardStatuses bi).isDraw
  let isValidTarget := g.globalWinner = none ∧ g.isGlobalDraw = false ∧
    ¬isComplete ∧ (g.nextBoardIndex = none ∨ g.nextBoardIndex = some bi)
  if ¬isInteractionAllowed c then c
  else if (g.board bi ci).isSome ∨ ¬isValidTarget ∨ isComplete then c
  else
    { c with
      gameState := handleCellClick c.onlineRole c.lastMove false g bi ci
      lastMove := if moveAccepted c.onlineRole false g bi ci then some (bi, ci)
                  else c.lastMove }

/-- A sequence of locally-originated clicks. -/
def uiClicks (c : CoordState) (clicks : List Move) : CoordState :=
  clicks.foldl (fun acc m => uiClick acc m.1 m.2) c

/-- Whether a triple is uniformly marked: all three positions hold the same
non-empty mark (the spec's condition for a winning triple). -/
def tripleMatches (cells : Fin 9 → Option Player) (t : Fin 9 × Fin 9 × Fin 9) : Bool :=
  (cells t.1).isSome && decide (cells t.2.1 = cells t.1) && decide (cells t.2.2 = cells t.1)

/-- A move that immediately wins its sub-board for the mover (spec notion for
the Tier-2 priority (a)). -/
def winsSmallBoard (s : GameState) (m : Move) : Prop :=
  (checkSmallBoardStatus fun j =>
    if j = m.2 then some s.currentPlayer else s.board m.1 j).winner = some s.currentPlayer

/-- A move occupying a cell the opponent could have used to win that
sub-board (spec notion for the Tier-2 priority (b)). -/
def blocksOpponentWin (s : GameState) (m : Move) : Prop :=
  (checkSmallBoardStatus fun j =>
    if j = m.2 then some s.currentPlayer.other else s.board m.1 j).winner =
    some s.currentPlayer.other

/-- Modelled from the spec's words, for comparison with the implemented
`tier3Candidates`: the moves whose noisy score is within 0.1 of the maximum
noisy score. -/
def specTier3TopSet (noise : Nat → ℚ) (s : GameState) : List Move :=
  let L := tier3Scored noise s
  (L.filter fun p => L.all fun q => decide (q.2 < p.2 + 1 / 10)).map Prod.fst

/-- Ascending order on `(boardIndex, cellIndex)` pairs. -/
def moveLt (a b : Move) : Prop := a.1 < b.1 ∨ (a.1 = b.1 ∧ a.2 < b.2)

instance (s : GameState) (m : Move) : Decidable (winsSmallBoard s m) := by
  unfold winsSmallBoard; infer_instance

instance (s : GameState) (m : Move) : Decidable (blocksOpponentWin s m) := by
  unfold blocksOpponentWin; infer_instance

section ScanLemmas

lemma tripleMatches_iff (cells : Fin 9 → Option Player) (t : Fin 9 × Fin 9 × Fin 9) :
    tripleMatches cells t = true ↔
      ∃ p, cells t.1 = some p ∧ cells t.2.1 = some p ∧ cells t.2.2 = some p := by
  cases h : cells t.1 with
  | none => simp [tripleMatches, h]
  | some p =>
    simp only [tripleMatches, h, Option.isSome_some, Bool.true_and, Bool.and_eq_true,
      decide_eq_true_eq]
    constructor
    · rintro ⟨h1, h2⟩; exact ⟨p, rfl, h1, h2⟩
    · rintro ⟨q, hq, h1, h2⟩
      obtain rfl : p = q := by simpa using hq
      exact ⟨h1, h2⟩

lemma scanWinner_eq_find (cells : Fin 9 → Option Player) :
    ∀ L, scanWinner cells L = (L.find? (tripleMatches cells)).bind fun t => cells t.1 := by
  intro L
  induction L with
  | nil => rfl
  | cons t rest ih =>
    obtain ⟨a, b, c⟩ := t
    cases h : cells a with
    | none =>
      rw [show scanWinner cells ((a, b, c) :: rest) = scanWinner cells rest from by
        simp [scanWinner, h]]
      rw [List.find?_cons_of_neg, ih]
      simp [tripleMatches, h]
    | some p =>
      by_cases hbc : cells b = some p ∧ cells c = some p
      · have hp : tripleMatches cells (a, b, c) = true := by
          simp [tripleMatches, h, hbc.1, hbc.2]
        rw [show scanWinner cells ((a, b, c) :: rest) = some p from by
          simp [scanWinner, h, hbc]]
        rw [List.find?_cons_of_pos _ hp]
        simp [h]
      · have hp : ¬tripleMatches cells (a, b, c) = true := by
          simp only [tripleMatches, h, Option.isSome_some, Bool.true_and, Bool.and_eq_true,
            decide_eq_true_eq, not_and]
          intro h1 h2
          exact absurd ⟨h1, h2⟩ hbc
        rw [show scanWinner cells ((a, b, c) :: rest) = scanWinner cells rest from by
          simp [scanWinner, h, hbc]]
        rw [List.find?_cons_of_neg _ hp, ih]

lemma checkSmallBoardStatus_winner (cells : SmallBoardState) :
    (checkSmallBoardStatus cells).winner = scanWinner cells WINNING_COMBINATIONS := by
  unfold checkSmallBoardStatus
  split
  · rename_i p h
    simp [h]
  · rename_i h
    rw [h]
    split <;> rfl

lemma checkGlobalWinner_winner (statuses : Fin 9 → SmallBoardStatus) :
    (checkGlobalWinner statuses).winner =
      scanWinner (fun i => (statuses i).winner) WINNING_COMBINATIONS := by
  unfold checkGlobalWinner
  split
  · rename_i p h
    simp [h]
  · rename_i h
    rw [h]
    split <;> rfl

lemma scanWinner_isSome_iff (cells : Fin 9 → Option Player) (L : List (Fin 9 × Fin 9 × Fin 9)) :
    (scanWinner cells L).isSome ↔
      ∃ t ∈ L, ∃ p, cells t.1 = some p ∧ cells t.2.1 = some p ∧ cells t.2.2 = some p := by
  rw [scanWinner_eq_find]
  cases hf : L.find? (tripleMatches cells) with
  | none =>
    rw [List.find?_eq_none] at hf
    simp only [Option.none_bind, Option.isSome_none, Bool.false_eq_true, false_iff]
    rintro ⟨t, ht, hp⟩
    exact hf t ht ((tripleMatches_iff cells t).2 hp)
  | some t =>
    have hmem := List.mem_of_find?_eq_some hf
    have hmatch := (tripleMatches_iff cells t).1 (List.find?_some hf)
    obtain ⟨p, hp1, _, _⟩ := hmatch
    simp only [Option.some_bind, hp1, Option.isSome_some, true_iff]
    exact ⟨t, hmem, (tripleMatches_iff cells t).1 (List.find?_some hf)⟩

lemma isFull_iff (cells : Fin 9 → Option Player) :
    isFull cells = true ↔ ∀ i, (cells i).isSome := by
  simp [isFull, List.all_eq_true, List.mem_finRange]

lemma allDecided_iff (statuses : Fin 9 → SmallBoardStatus) :
    allDecided statuses = true ↔
      ∀ i, (statuses i).winner.isSome ∨ (statuses i).isDraw = true := by
  simp [allDecided, List.all_eq_true, List.mem_finRange, Bool.or_eq_true]

end ScanLemmas

/-- C6: `checkSubBoardStatus` returns a winner if and only if some winning
triple of the 8 listed triples has all three cells equal and non-empty; the
winner returned is the shared mark of the first such triple in the listed
scan order (formalised by `List.find?` over `WINNING_COMBINATIONS`); and
`isDraw` holds if and only if all 9 cells are filled and there is no
winner. -/
theorem c6_checkSmallBoardStatus_correct (cells : SmallBoardState) :
    ((checkSmallBoardStatus cells).winner.isSome ↔
      ∃ t ∈ WINNING_COMBINATIONS, ∃ p,
        cells t.1 = some p ∧ cells t.2.1 = some p ∧ cells t.2.2 = some p) ∧
    (checkSmallBoardStatus cells).winner =
      ((WINNING_COMBINATIONS.find? (tripleMatches cells)).bind fun t => cells t.1) ∧
    ((checkSmallBoardStatus cells).isDraw = true ↔
      (∀ i, (cells i).isSome) ∧ (checkSmallBoardStatus cells).winner = none) := by
  refine ⟨?_, ?_, ?_⟩
  · rw [checkSmallBoardStatus_winner]
    exact scanWinner_isSome_iff cells WINNING_COMBINATIONS
  · rw [checkSmallBoardStatus_winner]
    exact scanWinner_eq_find cells WINNING_COMBINATIONS
  · unfold checkSmallBoardStatus
    split
    · rename_i p h
      simp
    · rename_i h
      rw [h] at *
      constructor
      · intro hd
        split at hd
        · rename_i hfull
          exact ⟨(isFull_iff cells).1 hfull, by split <;> simp_all⟩
        · simp at hd
      · rintro ⟨hall, -⟩
        rw [if_pos ((isFull_iff cells).2 hall)]

/-- C7: `checkGlobalWinner` returns a winner exactly when some winning triple
of per-board winners is uniformly the same non-none mark (a sub-board with no
winner contributes no match, and the returned mark is that of the first
matching triple in scan order), and declares a global draw if and only if
every one of the 9 statuses is individually decided (won or drawn) and no
meta-triple produced a winner. -/
theorem c7_checkGlobalWinner_correct (statuses : Fin 9 → SmallBoardStatus) :
    ((checkGlobalWinner statuses).winner.isSome ↔
      ∃ t ∈ WINNING_COMBINATIONS, ∃ p,
        (statuses t.1).winner = some p ∧ (statuses t.2.1).winner = some p ∧
        (statuses t.2.2).winner = some p) ∧
    (checkGlobalWinner statuses).winner =
      ((WINNING_COMBINATIONS.find? (tripleMatches fun i => (statuses i).winner)).bind
        fun t => (statuses t.1).winner) ∧
    ((checkGlobalWinner statuses).isDraw = true ↔
      (∀ i, (statuses i).winner.isSome ∨ (statuses i).isDraw = true) ∧
      (checkGlobalWinner statuses).winner = none) := by
  refine ⟨?_, ?_, ?_⟩
  · rw [checkGlobalWinner_winner]
    exact scanWinner_isSome_iff (fun i => (statuses i).winner) WINNING_COMBINATIONS
  · rw [checkGlobalWinner_winner]
    exact scanWinner_eq_find (fun i => (statuses i).winner) WINNING_COMBINATIONS
  · unfold checkGlobalWinner
    split
    · rename_i p h
      simp
    · rename_i h
      rw [h] at *
      constructor
      · intro hd
        split at hd
        · rename_i hdec
          exact ⟨(allDecided_iff statuses).1 hdec, by split <;> simp_all⟩
        · simp at hd
      · rintro ⟨hall, -⟩
        rw [if_pos ((allDecided_iff statuses).2 hall)]

section ValidMoves

lemma mem_movesInBoard {s : GameState} {b : Fin 9} {m : Move} :
    m ∈ movesInBoard s b ↔
      m.1 = b ∧ (s.smallBoardStatuses b).winner = none ∧
      (s.smallBoardStatuses b).isDraw = false ∧ s.board b m.2 = none := by
  unfold movesInBoard
  split
  · rename_i hb
    simp only [List.mem_map, List.mem_filter, List.mem_finRange, true_and,
      decide_eq_true_eq]
    constructor
    · rintro ⟨c, hc, rfl⟩
      exact ⟨rfl, hb.1, hb.2, hc⟩
    · rintro ⟨h1, -, -, h4⟩
      exact ⟨m.2, h4, by rw [← h1]⟩
  · rename_i hb
    simp only [List.not_mem_nil, false_iff, not_and]
    intro h1 h2 h3 _
    exact hb ⟨h2, h3⟩

lemma getValidMoves_eq_of_winner {s : GameState} (h : s.globalWinner.isSome) :
    getValidMoves s = [] := by
  unfold getValidMoves
  rw [if_pos h]

lemma getValidMoves_eq_forced {s : GameState} {n : Fin 9}
    (hg : s.globalWinner = none) (hn : s.nextBoardIndex = some n)
    (hnb : (s.smallBoardStatuses n).winner = none ∧ (s.smallBoardStatuses n).isDraw = false) :
    getValidMoves s = movesInBoard s n := by
  unfold getValidMoves
  rw [hg, hn]
  simp [hnb.1, hnb.2]

lemma getValidMoves_eq_free_none {s : GameState}
    (hg : s.globalWinner = none) (hn : s.nextBoardIndex = none) :
    getValidMoves s = (List.finRange 9).flatMap (movesInBoard s) := by
  unfold getValidMoves
  rw [hg, hn]
  rfl

lemma getValidMoves_eq_free_decided {s : GameState} {n : Fin 9}
    (hg : s.globalWinner = none) (hn : s.nextBoardIndex = some n)
    (hnb : ¬((s.smallBoardStatuses n).winner = none ∧
      (s.smallBoardStatuses n).isDraw = false)) :
    getValidMoves s = (List.finRange 9).flatMap (movesInBoard s) := by
  unfold getValidMoves
  rw [hg, hn]
  simp only [Option.isSome_none, Bool.false_eq_true, if_false]
  rw [if_neg hnb]

lemma mem_flatMap_movesInBoard {s : GameState} {m : Move} :
    m ∈ (List.finRange 9).flatMap (movesInBoard s) ↔
      (s.smallBoardStatuses m.1).winner = none ∧
      (s.smallBoardStatuses m.1).isDraw = false ∧ s.board m.1 m.2 = none := by
  simp only [List.mem_flatMap, List.mem_finRange, true_and]
  constructor
  · rintro ⟨b, hm⟩
    obtain ⟨h1, h2, h3, h4⟩ := mem_movesInBoard.1 hm
    subst h1
    exact ⟨h2, h3, h4⟩
  · rintro ⟨h2, h3, h4⟩
    exact ⟨m.1, mem_movesInBoard.2 ⟨rfl, h2, h3, h4⟩⟩

lemma mem_getValidMoves {s : GameState} {m : Move} :
    m ∈ getValidMoves s ↔
      s.globalWinner = none ∧
      (s.smallBoardStatuses m.1).winner = none ∧
      (s.smallBoardStatuses m.1).isDraw = false ∧
      s.board m.1 m.2 = none ∧
      (∀ n, s.nextBoardIndex = some n →
        (s.smallBoardStatuses n).winner = none →
        (s.smallBoardStatuses n).isDraw = false → m.1 = n) := by
  cases hg : s.globalWinner with
  | some p =>
    rw [getValidMoves_eq_of_winner (by rw [hg]; rfl)]
    simp [hg]
  | none =>
    cases hn : s.nextBoardIndex with
    | none =>
      rw [getValidMoves_eq_free_none hg hn, mem_flatMap_movesInBoard]
      simp only [hg, hn, true_and]
      constructor
      · rintro ⟨h2, h3, h4⟩
        exact ⟨h2, h3, h4, by simp⟩
      · rintro ⟨h2, h3, h4, -⟩
        exact ⟨h2, h3, h4⟩
    | some n =>
      by_cases hnb : (s.smallBoardStatuses n).winner = none ∧
          (s.smallBoardStatuses n).isDraw = false
      · rw [getValidMoves_eq_forced hg hn hnb, mem_movesInBoard]
        simp only [hg, hn, true_and]
        constructor
        · rintro ⟨h1, h2, h3, h4⟩
          subst h1
          exact ⟨h2, h3, h4, fun k hk _ _ => Option.some.inj hk⟩
        · rintro ⟨h2, h3, h4, h5⟩
          have h1 : m.1 = n := h5 n rfl hnb.1 hnb.2
          exact ⟨h1, h1 ▸ h2, h1 ▸ h3, h1 ▸ h4⟩
      · rw [getValidMoves_eq_free_decided hg hn hnb, mem_flatMap_movesInBoard]
        simp only [hg, hn, true_and]
        constructor
        · rintro ⟨h2, h3, h4⟩
          refine ⟨h2, h3, h4, fun k hk hw hd => ?_⟩
          injection hk with hk
          subst hk
          exact absurd ⟨hw, hd⟩ hnb
        · rintro ⟨h2, h3, h4, -⟩
          exact ⟨h2, h3, h4⟩

lemma movesInBoard_pairwise (s : GameState) (b : Fin 9) :
    (movesInBoard s b).Pairwise moveLt := by
  unfold movesInBoard
  split
  · exact ((List.pairwise_lt_finRange 9).filter _).map _
      (fun a b h => Or.inr ⟨rfl, h⟩)
  · exact List.Pairwise.nil

lemma flatMap_movesInBoard_pairwise (s : GameState) (L : List (Fin 9))
    (hL : L.Pairwise (· < ·)) : (L.flatMap (movesInBoard s)).Pairwise moveLt := by
  rw [List.pairwise_flatMap]
  refine ⟨fun b _ => movesInBoard_pairwise s b, hL.imp ?_⟩
  intro b1 b2 hlt x hx y hy
  obtain ⟨hx1, -, -, -⟩ := mem_movesInBoard.1 hx
  obtain ⟨hy1, -, -, -⟩ := mem_movesInBoard.1 hy
  exact Or.inl (by rw [hx1, hy1]; exact hlt)

lemma getValidMoves_pairwise (s : GameState) :
    (getValidMoves s).Pairwise moveLt := by
  cases hg : s.globalWinner with
  | some p =>
    rw [getValidMoves_eq_of_winner (by rw [hg]; rfl)]
    exact List.Pairwise.nil
  | none =>
    cases hn : s.nextBoardIndex with
    | none =>
      rw [getValidMoves_eq_free_none hg hn]
      exact flatMap_movesInBoard_pairwise s _ (List.pairwise_lt_finRange 9)
    | some n =>
      by_cases hnb : (s.smallBoardStatuses n).winner = none ∧
          (s.smallBoardStatuses n).isDraw = false
      · rw [getValidMoves_eq_forced hg hn hnb]
        exact movesInBoard_pairwise s n
      · rw [getValidMoves_eq_free_decided hg hn hnb]
        exact flatMap_movesInBoard_pairwise s _ (List.pairwise_lt_finRange 9)

end ValidMoves

/-- C8: `getValidMoves` returns the empty list when the state's winner is
set; otherwise a move is in the list exactly when its cell is empty, its
board is undecided, and — whenever `nextBoardIndex` points at an undecided
board — the move is on that board (so a forced pointer to a decided board
falls back to every undecided board); and the list is ordered ascending by
`(boardIndex, cellIndex)`. Determinism is inherent: the embedding is a pure
function of the state. -/
theorem c8_getValidMoves_correct (s : GameState) :
    (s.globalWinner.isSome → getValidMoves s = []) ∧
    (∀ m : Move, m ∈ getValidMoves s ↔
      s.globalWinner = none ∧
      (s.smallBoardStatuses m.1).winner = none ∧
      (s.smallBoardStatuses m.1).isDraw = false ∧
      s.board m.1 m.2 = none ∧
      (∀ n, s.nextBoardIndex = some n →
        (s.smallBoardStatuses n).winner = none →
        (s.smallBoardStatuses n).isDraw = false → m.1 = n)) ∧
    (getValidMoves s).Pairwise moveLt := by
  refine ⟨fun hw => ?_, fun m => mem_getValidMoves, getValidMoves_pairwise s⟩
  unfold getValidMoves
  rw [if_pos hw]

/-- Witness for C8 at concrete states: a state with a set winner has no
moves, and the first move of the initial state satisfies the membership
characterisation. -/
theorem c8_witness :
    getValidMoves { initialGameState with globalWinner := some Player.X } = [] ∧
    (((0, 0) : Move) ∈ getValidMoves initialGameState ↔
      initialGameState.globalWinner = none ∧
      (initialGameState.smallBoardStatuses 0).winner = none ∧
      (initialGameState.smallBoardStatuses 0).isDraw = false ∧
      initialGameState.board 0 0 = none ∧
      (∀ n, initialGameState.nextBoardIndex = some n →
        (initialGameState.smallBoardStatuses n).winner = none →
        (initialGameState.smallBoardStatuses n).isDraw = false → (0 : Fin 9) = n)) :=
  ⟨(c8_getValidMoves_correct _).1 (by decide),
   (c8_getValidMoves_correct initialGameState).2.1 (0, 0)⟩

section Reducer

lemma handleCellClick_eq_ite (role : OnlineRole) (lastMove : Option Move)
    (isRemote : Bool) (s : GameState) (bi ci : Fin 9) :
    handleCellClick role lastMove isRemote s bi ci =
      if moveAccepted role isRemote s bi ci
      then applySuccessfulMove lastMove s bi ci else s := by
  unfold handleCellClick
  split
  · rename_i h1
    rw [if_neg]
    intro hacc
    exact hacc.1 h1
  · split
    · rename_i h1 h2
      rw [if_neg]
      intro hacc
      rw [hacc.2.1] at h2
      exact absurd h2 (by simp)
    · split
      · rename_i h1 h2 h3
        rw [if_neg]
        intro hacc
        rw [hacc.2.2.1] at h3
        exact absurd h3 (by simp)
      · split
        · rename_i h1 h2 h3 h4
          rw [if_neg]
          intro hacc
          rcases hacc.2.2.2.1 with h | h
          · exact h4.1 h
          · exact h4.2 h
        · split
          · rename_i h1 h2 h3 h4 h5
            rw [if_neg]
            intro hacc
            rcases h5 with h | h
            · rw [hacc.2.2.2.2.1] at h
              exact absurd h (by simp)
            · rw [hacc.2.2.2.2.2] at h
              exact absurd h (by simp)
          · rename_i h1 h2 h3 h4 h5
            rw [if_pos]
            push_neg at h4
            refine ⟨h1, ?_, ?_, ?_, ?_, ?_⟩
            · cases hg : s.globalWinner with
              | none => rfl
              | some p => rw [hg] at h2; exact absurd rfl h2
            · cases hc : s.board bi ci with
              | none => rfl
              | some p => rw [hc] at h3; exact absurd rfl h3
            · by_cases hn : s.nextBoardIndex = none
              · exact Or.inl hn
              · exact Or.inr (h4 hn)
            · cases hw : (s.smallBoardStatuses bi).winner with
              | none => rfl
              | some p =>
                exact absurd (Or.inl (by rw [hw]; rfl)) h5
            · cases hd : (s.smallBoardStatuses bi).isDraw with
              | false => rfl
              | true => exact absurd (Or.inr hd) h5

lemma applySuccessfulMove_nextBoardIndex (lastMove : Option Move)
    (s : GameState) (bi ci : Fin 9) :
    (applySuccessfulMove lastMove s bi ci).nextBoardIndex =
      if ((applySuccessfulMove lastMove s bi ci).smallBoardStatuses ci).winner.isSome ∨
          ((applySuccessfulMove lastMove s bi ci).smallBoardStatuses ci).isDraw
      then none else some ci := rfl

end Reducer

/-- An artificial state refuting C1 as universally stated: the global-draw
flag is set, yet no sub-board is decided and the board is empty, so the
reducer has no validation that fires. Such a state is not reachable (a real
global draw forces every sub-board status to be decided). -/
def c1BadState : GameState := { initialGameState with isGlobalDraw := true }

/-- Counterexample to C1 as stated: in `c1BadState` the game is terminal in
the claim's sense (global draw flag set), yet `handleCellClick` applies the
move at (0,0) and returns a modified state — the code checks only
`globalWinner`, never `isGlobalDraw`. -/
theorem c1_counterexample :
    c1BadState.isGlobalDraw = true ∧
    handleCellClick OnlineRole.NULL none false c1BadState 0 0 ≠ c1BadState := by
  refine ⟨rfl, fun h => ?_⟩
  have hmc := congrArg GameState.moveCount h
  rw [show (handleCellClick OnlineRole.NULL none false c1BadState 0 0).moveCount = 1
    from by decide] at hmc
  exact absurd hmc (by decide)

/-- C1 (amended): `handleCellClick` returns exactly the input state — no
field modified — whenever the target cell is non-empty, the game is terminal
(a winner is set, or the global-draw flag is set in a state where that flag
is consistent with the statuses, i.e. every sub-board is decided, as in all
reachable states), or `nextBoardIndex` is set and differs from the target
board. -/
theorem c1_rejection_state_unchanged (role : OnlineRole) (lastMove : Option Move)
    (isRemote : Bool) (s : GameState) (bi ci : Fin 9)
    (h : s.board bi ci ≠ none ∨ s.globalWinner ≠ none ∨
      (s.isGlobalDraw = true ∧
        ∀ j, (s.smallBoardStatuses j).winner.isSome ∨ (s.smallBoardStatuses j).isDraw = true) ∨
      (∃ f, s.nextBoardIndex = some f ∧ f ≠ bi)) :
    handleCellClick role lastMove isRemote s bi ci = s := by
  rw [handleCellClick_eq_ite, if_neg]
  intro hacc
  rcases h with h | h | ⟨-, hall⟩ | ⟨f, hf, hfb⟩
  · exact h hacc.2.2.1
  · exact h hacc.2.1
  · rcases hall bi with hw | hd
    · rw [hacc.2.2.2.2.1] at hw
      exact absurd hw (by simp)
    · rw [hacc.2.2.2.2.2] at hd
      exact absurd hd (by simp)
  · rcases hacc.2.2.2.1 with hn | hn
    · rw [hf] at hn
      exact absurd hn (by simp)
    · rw [hf] at hn
      exact hfb (Option.some.inj hn)

/-- Witness for C1 (amended): a concrete wrong-forced-board click is
rejected with the state returned unchanged. -/
theorem c1_witness :
    handleCellClick OnlineRole.NULL none false
      { initialGameState with nextBoardIndex := some 1 } 0 0 =
      { initialGameState with nextBoardIndex := some 1 } :=
  c1_rejection_state_unchanged OnlineRole.NULL none false _ 0 0
    (Or.inr (Or.inr (Or.inr ⟨1, rfl, by decide⟩)))

/-- C2: on every accepted move into cell `ci`, the resulting `nextBoardIndex`
is `some ci` exactly when the destination board `ci` is undecided in the
post-move statuses, and `none` when it is decided there; and in every state
reachable through the reducer from the initial state, `nextBoardIndex`, when
set, references a sub-board whose status is neither won nor drawn. -/
theorem c2_forced_board_correct :
    (∀ (role : OnlineRole) (lastMove : Option Move) (isRemote : Bool)
      (s : GameState) (bi ci : Fin 9),
      moveAccepted role isRemote s bi ci →
      (handleCellClick role lastMove isRemote s bi ci).nextBoardIndex =
        if ((handleCellClick role lastMove isRemote s bi ci).smallBoardStatuses ci).winner.isSome ∨
            ((handleCellClick role lastMove isRemote s bi ci).smallBoardStatuses ci).isDraw
        then none else some ci) ∧
    (∀ s : GameState, Reachable s → ∀ b, s.nextBoardIndex = some b →
      (s.smallBoardStatuses b).winner = none ∧ (s.smallBoardStatuses b).isDraw = false) := by
  constructor
  · intro role lastMove isRemote s bi ci hacc
    rw [handleCellClick_eq_ite, if_pos hacc]
    exact applySuccessfulMove_nextBoardIndex lastMove s bi ci
  · intro s hs
    induction hs with
    | init =>
      intro b hb
      exact absurd hb (by simp [initialGameState])
    | step role lastMove isRemote bi ci hr ih =>
      rename_i t
      intro b hb
      rw [handleCellClick_eq_ite] at hb ⊢
      by_cases hacc : moveAccepted role isRemote t bi ci
      · rw [if_pos hacc] at hb ⊢
        rw [applySuccessfulMove_nextBoardIndex] at hb
        split at hb
        · exact absurd hb (by simp)
        · rename_i hdec
          obtain rfl : ci = b := Option.some.inj hb
          push_neg at hdec
          exact ⟨Option.not_isSome_iff_eq_none.1 hdec.1,
            Bool.not_eq_true _ ▸ hdec.2⟩
      · rw [if_neg hacc] at hb ⊢
        exact ih b hb

/-- Witness for C2: the accepted opening move into cell 0 forces board 0 (an
undecided destination), and the reachable one-move state carries an
undecided forced board. -/
theorem c2_witness :
    ((handleCellClick OnlineRole.NULL none false initialGameState 0 0).nextBoardIndex =
      if ((handleCellClick OnlineRole.NULL none false initialGameState 0 0).smallBoardStatuses
            0).winner.isSome ∨
          ((handleCellClick OnlineRole.NULL none false initialGameState 0 0).smallBoardStatuses
            0).isDraw
      then none else some 0) ∧
    (((handleCellClick OnlineRole.NULL none false initialGameState 0 1).smallBoardStatuses
        1).winner = none ∧
      ((handleCellClick OnlineRole.NULL none false initialGameState 0 1).smallBoardStatuses
        1).isDraw = false) :=
  ⟨c2_forced_board_correct.1 OnlineRole.NULL none false initialGameState 0 0 (by decide),
   c2_forced_board_correct.2 _
     (Reachable.step OnlineRole.NULL none false 0 1 Reachable.init) 1 (by decide)⟩

section Disconnect

lemma uiClick_disconnected {c : CoordState} (bi ci : Fin 9)
    (h1 : c.gameState.gameMode = GameMode.PvOnline)
    (h2 : c.onlineState ≠ OnlineState.CONNECTED) :
    uiClick c bi ci = c := by
  unfold uiClick
  rw [if_pos]
  intro hallowed
  exact h2 ((hallowed.2 h1).2.2)

end Disconnect

/-- C3: once the peer-disconnect callback has put the coordinator in the
`DISCONNECTED` state during an online match, every subsequent sequence of
locally-originated clicks leaves the GameState unchanged, and the
coordinator stays `DISCONNECTED` (only starting a new match leaves that
state) — the board UI disables all interaction whenever an online session is
not `CONNECTED`, so no click reaches the reducer. -/
theorem c3_disconnect_freezes_state (c : CoordState) (clicks : List Move)
    (h1 : c.gameState.gameMode = GameMode.PvOnline)
    (h2 : c.onlineState = OnlineState.DISCONNECTED) :
    (uiClicks c clicks).gameState = c.gameState ∧
    (uiClicks c clicks).onlineState = OnlineState.DISCONNECTED := by
  have hfix : uiClicks c clicks = c := by
    unfold uiClicks
    induction clicks with
    | nil => rfl
    | cons m rest ih =>
      rw [List.foldl_cons,
        uiClick_disconnected m.1 m.2 h1 (by rw [h2]; exact fun h => by exact absurd h (by decide))]
      exact ih
  rw [hfix]
  exact ⟨rfl, h2⟩

/-- Witness for C3: a concrete disconnected online coordinator state ignores
a click sequence entirely. -/
theorem c3_witness :
    (uiClicks
      ⟨{ initialGameState with gameMode := GameMode.PvOnline },
        OnlineState.DISCONNECTED, OnlineRole.HOST, none⟩
      [(0, 0), (4, 4)]).gameState =
      { initialGameState with gameMode := GameMode.PvOnline } ∧
    (uiClicks
      ⟨{ initialGameState with gameMode := GameMode.PvOnline },
        OnlineState.DISCONNECTED, OnlineRole.HOST, none⟩
      [(0, 0), (4, 4)]).onlineState = OnlineState.DISCONNECTED :=
  c3_disconnect_freezes_state _ _ rfl rfl

section CanWin

lemma canWinBoard_eq_some {b : SmallBoardState} {p : Player} {i : Fin 9}
    (h : canWinBoard b p = some i) :
    b i = none ∧
    (checkSmallBoardStatus fun j => if j = i then some p else b j).winner = some p := by
  have := List.find?_some h
  simp only [Bool.and_eq_true, decide_eq_true_eq] at this
  exact this

lemma canWinBoard_isSome {b : SmallBoardState} {p : Player} {i : Fin 9}
    (h1 : b i = none)
    (h2 : (checkSmallBoardStatus fun j => if j = i then some p else b j).winner = some p) :
    (canWinBoard b p).isSome := by
  rw [canWinBoard, List.find?_isSome]
  exact ⟨i, List.mem_finRange i, by simp [h1, h2]⟩

lemma canWinBoard_eq_none {b : SmallBoardState} {p : Player}
    (h : canWinBoard b p = none) (i : Fin 9) (h1 : b i = none) :
    (checkSmallBoardStatus fun j => if j = i then some p else b j).winner ≠ some p := by
  rw [canWinBoard, List.find?_eq_none] at h
  intro h2
  exact h i (List.mem_finRange i) (by simp [h1, h2])

/-- If some legal move in the list wins (respectively blocks) its board, the
first `find?` pass of the Intermediate tier succeeds, and whatever it
returns is itself a winning (blocking) placement for the given mark. -/
lemma find?_canWin_of_exists {s : GameState} {p : Player} {m : Move}
    (hmem : m ∈ getValidMoves s)
    (hwin : (checkSmallBoardStatus fun j =>
      if j = m.2 then some p else s.board m.1 j).winner = some p) :
    ∃ m' : Move, (getValidMoves s).find?
        (fun x => decide (canWinBoard (s.board x.1) p = some x.2)) = some m' ∧
      canWinBoard (s.board m'.1) p = some m'.2 := by
  obtain ⟨hg, hw, hd, hc, hforced⟩ := mem_getValidMoves.1 hmem
  have hsome : (canWinBoard (s.board m.1) p).isSome := canWinBoard_isSome hc hwin
  obtain ⟨i, hi⟩ := Option.isSome_iff_exists.1 hsome
  obtain ⟨hie, -⟩ := canWinBoard_eq_some hi
  have hmem' : ((m.1, i) : Move) ∈ getValidMoves s :=
    mem_getValidMoves.2 ⟨hg, hw, hd, hie, hforced⟩
  have hfind : ((getValidMoves s).find?
      (fun x => decide (canWinBoard (s.board x.1) p = some x.2))).isSome := by
    rw [List.find?_isSome]
    exact ⟨(m.1, i), hmem', by simp [hi]⟩
  obtain ⟨m', hm'⟩ := Option.isSome_iff_exists.1 hfind
  refine ⟨m', hm', ?_⟩
  have := List.find?_some hm'
  simpa using this

end CanWin

/-- C5: in the Intermediate tier, whenever some legal move immediately wins
its sub-board, the returned move is a legal move that immediately wins its
sub-board (`for` loop (1) of `getAiMove`); and whenever no legal move wins
but some legal move occupies a cell the opponent could have used to win that
sub-board, the returned move is such a legal blocking move (loop (2)) —
independently of the random draws. -/
theorem c5_tier2_priority (s : GameState)
    (hd : s.aiDifficulty = AiDifficulty.Intermediate) :
    (∀ (noise : Nat → ℚ) (pick : Nat),
      (∃ m ∈ getValidMoves s, winsSmallBoard s m) →
      ∃ m', getAiMove noise pick s = some m' ∧ m' ∈ getValidMoves s ∧
        winsSmallBoard s m') ∧
    (∀ (noise : Nat → ℚ) (pick : Nat),
      (¬∃ m ∈ getValidMoves s, winsSmallBoard s m) →
      (∃ m ∈ getValidMoves s, blocksOpponentWin s m) →
      ∃ m', getAiMove noise pick s = some m' ∧ m' ∈ getValidMoves s ∧
        blocksOpponentWin s m') := by
  constructor
  · rintro noise pick ⟨m, hmem, hwin⟩
    obtain ⟨m', hfind, hcw⟩ := find?_canWin_of_exists hmem hwin
    obtain ⟨hce, hcwin⟩ := canWinBoard_eq_some hcw
    have hmem' : m' ∈ getValidMoves s := List.mem_of_find?_eq_some hfind
    refine ⟨m', ?_, hmem', hcwin⟩
    have hne : (getValidMoves s).isEmpty = false := by
      cases h : getValidMoves s with
      | nil => rw [h] at hmem; exact absurd hmem (List.not_mem_nil m)
      | cons a l => rfl
    simp only [getAiMove, hne, hd, Bool.false_eq_true, if_false]
    rw [hfind]
  · rintro noise pick hnowin ⟨m, hmem, hblock⟩
    have hfind1 : (getValidMoves s).find?
        (fun x => decide (canWinBoard (s.board x.1) s.currentPlayer = some x.2)) = none := by
      rw [List.find?_eq_none]
      intro x hx hpx
      simp only [decide_eq_true_eq] at hpx
      obtain ⟨-, hxwin⟩ := canWinBoard_eq_some hpx
      exact hnowin ⟨x, hx, hxwin⟩
    obtain ⟨m', hfind2, hcw⟩ := find?_canWin_of_exists hmem hblock
    obtain ⟨hce, hcwin⟩ := canWinBoard_eq_some hcw
    have hmem' : m' ∈ getValidMoves s := List.mem_of_find?_eq_some hfind2
    refine ⟨m', ?_, hmem', hcwin⟩
    have hne : (getValidMoves s).isEmpty = false := by
      cases h : getValidMoves s with
      | nil => rw [h] at hmem; exact absurd hmem (List.not_mem_nil m)
      | cons a l => rfl
    simp only [getAiMove, hne, hd, Bool.false_eq_true, if_false]
    rw [hfind1, hfind2]

section AdvancedFold

/-- Invariant of the Advanced-tier loop after the scored prefix `seen` has
been processed: the running best is the maximum noisy score seen so far, the
candidate list is non-empty, contains a move attaining the running best, and
every candidate's noisy score is within 0.1 below the running best. -/
def advInv (seen : List (Move × ℚ)) (acc : Option ℚ × List Move) : Prop :=
  (acc.1 = none → seen = [] ∧ acc.2 = []) ∧
  (∀ b, acc.1 = some b →
    acc.2 ≠ [] ∧
    (∃ m ∈ acc.2, (m, b) ∈ seen) ∧
    (∀ p ∈ seen, p.2 ≤ b) ∧
    (∀ m ∈ acc.2, ∃ q, (m, q) ∈ seen ∧ b - 1 / 10 < q))

lemma advInv_nil : advInv [] (none, []) :=
  ⟨fun _ => ⟨rfl, rfl⟩, fun b hb => by exact absurd hb (by simp)⟩

lemma advInv_step (seen : List (Move × ℚ)) (acc : Option ℚ × List Move)
    (p : Move × ℚ) (h : advInv seen acc) : advInv (seen ++ [p]) (advStep acc p) := by
  obtain ⟨a1, a2⟩ := acc
  cases a1 with
  | none =>
    obtain ⟨hseen, hacc⟩ := h.1 rfl
    subst hseen hacc
    refine ⟨fun hn => by exact absurd hn (by simp [advStep]), fun b hb => ?_⟩
    obtain rfl : p.2 = b := Option.some.inj hb
    refine ⟨by simp [advStep], ⟨p.1, by simp [advStep], by simp⟩, ?_, ?_⟩
    · intro q hq
      obtain rfl : q = p := by simpa using hq
      exact le_refl _
    · intro m hm
      obtain rfl : m = p.1 := by simpa [advStep] using hm
      exact ⟨p.2, by simp, by linarith⟩
  | some b =>
    obtain ⟨hne, ⟨mstar, hmstar, hmstarmem⟩, hub, hcl⟩ := h.2 b rfl
    show advInv (seen ++ [p]) (advStep (some b, a2) p)
    rw [show advStep (some b, a2) p =
        if p.2 > b then (some p.2, [p.1])
        else if |p.2 - b| < 1 / 10 then (some b, a2 ++ [p.1]) else (some b, a2)
      from rfl]
    split
    · rename_i hgt
      refine ⟨fun hn => by exact absurd hn (by simp), fun b' hb' => ?_⟩
      obtain rfl : p.2 = b' := Option.some.inj hb'
      refine ⟨by simp, ⟨p.1, by simp, by simp⟩, ?_, ?_⟩
      · intro q hq
        rcases List.mem_append.1 hq with hq | hq
        · exact le_of_lt (lt_of_le_of_lt (hub q hq) hgt)
        · obtain rfl : q = p := by simpa using hq
          exact le_refl _
      · intro m hm
        obtain rfl : m = p.1 := by simpa using hm
        exact ⟨p.2, by simp, by linarith⟩
    · rename_i hngt
      split
      · rename_i habs
        refine ⟨fun hn => by exact absurd hn (by simp), fun b' hb' => ?_⟩
        obtain rfl : b = b' := Option.some.inj hb'
        have hp2 : p.2 ≤ b := not_lt.1 hngt
        have hlow : b - 1 / 10 < p.2 := by
          have := (abs_lt.1 habs).1
          linarith
        refine ⟨by simp, ⟨mstar, List.mem_append_left _ hmstar,
          List.mem_append_left _ hmstarmem⟩, ?_, ?_⟩
        · intro q hq
          rcases List.mem_append.1 hq with hq | hq
          · exact hub q hq
          · obtain rfl : q = p := by simpa using hq
            exact hp2
        · intro m hm
          rcases List.mem_append.1 hm with hm | hm
          · obtain ⟨q, hq1, hq2⟩ := hcl m hm
            exact ⟨q, List.mem_append_left _ hq1, hq2⟩
          · obtain rfl : m = p.1 := by simpa using hm
            exact ⟨p.2, List.mem_append_right _ (by simp), hlow⟩
      · rename_i hnabs
        refine ⟨fun hn => by exact absurd hn (by simp), fun b' hb' => ?_⟩
        obtain rfl : b = b' := Option.some.inj hb'
        have hp2 : p.2 ≤ b := not_lt.1 hngt
        refine ⟨hne, ⟨mstar, hmstar, List.mem_append_left _ hmstarmem⟩, ?_, ?_⟩
        · intro q hq
          rcases List.mem_append.1 hq with hq | hq
          · exact hub q hq
          · obtain rfl : q = p := by simpa using hq
            exact hp2
        · intro m hm
          obtain ⟨q, hq1, hq2⟩ := hcl m hm
          exact ⟨q, List.mem_append_left _ hq1, hq2⟩

lemma advInv_foldl (l : List (Move × ℚ)) :
    ∀ (seen : List (Move × ℚ)) (acc : Option ℚ × List Move),
      advInv seen acc → advInv (seen ++ l) (l.foldl advStep acc) := by
  induction l with
  | nil => intro seen acc h; simpa using h
  | cons p rest ih =>
    intro seen acc h
    rw [List.foldl_cons, show seen ++ p :: rest = (seen ++ [p]) ++ rest from by simp]
    exact ih (seen ++ [p]) (advStep acc p) (advInv_step seen acc p h)

lemma tier3_invariant (noise : Nat → ℚ) (s : GameState) :
    advInv (tier3Scored noise s) ((tier3Scored noise s).foldl advStep (none, [])) := by
  have h := advInv_foldl (tier3Scored noise s) [] (none, []) advInv_nil
  simpa using h

lemma mem_scoreMoves {s : GameState} {noise : Nat → ℚ} :
    ∀ {i : Nat} {l : List Move} {m : Move} {q : ℚ},
      (m, q) ∈ scoreMoves s noise i l → m ∈ l := by
  intro i l
  induction l generalizing i with
  | nil => intro m q h; exact absurd h (List.not_mem_nil _)
  | cons a rest ih =>
    intro m q h
    rcases List.mem_cons.1 h with h | h
    · exact List.mem_cons.2 (Or.inl (congrArg Prod.fst h))
    · exact List.mem_cons.2 (Or.inr (ih h))

lemma tier3Scored_ne_nil {noise : Nat → ℚ} {s : GameState}
    (h : getValidMoves s ≠ []) : tier3Scored noise s ≠ [] := by
  unfold tier3Scored
  cases hv : getValidMoves s with
  | nil => exact absurd hv h
  | cons a rest => simp [scoreMoves]

lemma tier3Candidates_subset (noise : Nat → ℚ) (s : GameState) :
    ∀ m ∈ tier3Candidates noise s, m ∈ getValidMoves s := by
  intro m hm
  have hinv := tier3_invariant noise s
  unfold tier3Candidates at hm
  cases hb : ((tier3Scored noise s).foldl advStep (none, [])).1 with
  | none =>
    obtain ⟨-, hacc⟩ := hinv.1 hb
    rw [hacc] at hm
    exact absurd hm (List.not_mem_nil _)
  | some b =>
    obtain ⟨-, -, -, hcl⟩ := hinv.2 b hb
    obtain ⟨q, hq, -⟩ := hcl m hm
    exact mem_scoreMoves hq

lemma isEmpty_false_of_ne_nil {α : Type} {l : List α} (h : l ≠ []) :
    l.isEmpty = false := by
  cases l with
  | nil => exact absurd rfl h
  | cons a rest => rfl

lemma getAiMove_advanced (noise : Nat → ℚ) (pick : Nat) (s : GameState)
    (hd : s.aiDifficulty = AiDifficulty.Advanced)
    (hne : getValidMoves s ≠ []) (hc : tier3Candidates noise s ≠ []) :
    getAiMove noise pick s =
      (tier3Candidates noise s).get? (pick % (tier3Candidates noise s).length) := by
  simp only [getAiMove, isEmpty_false_of_ne_nil hne, hd,
    isEmpty_false_of_ne_nil hc, Bool.false_eq_true, if_false]

end AdvancedFold

/-- C4 (amended): under the Advanced tier with a non-empty legal-move set,
the returned move is drawn (via the injected index) from the non-empty
candidate list built by the single left-to-right pass; every candidate is a
legal move whose noisy score lies strictly within 0.1 of the maximum noisy
score, and the maximum is attained among the candidates — but the list may
omit legal moves within 0.1 of the maximum that were scanned before the last
strict improvement, so it is in general only a subset of the spec's
within-0.1-of-maximum set. -/
theorem c4_tier3_selection (noise : Nat → ℚ) (s : GameState)
    (hd : s.aiDifficulty = AiDifficulty.Advanced)
    (hne : getValidMoves s ≠ []) :
    tier3Candidates noise s ≠ [] ∧
    (∀ m ∈ tier3Candidates noise s, m ∈ getValidMoves s) ∧
    (∀ m ∈ tier3Candidates noise s, ∃ q, (m, q) ∈ tier3Scored noise s ∧
      ∀ p ∈ tier3Scored noise s, p.2 < q + 1 / 10) ∧
    (∃ m ∈ tier3Candidates noise s, ∃ q, (m, q) ∈ tier3Scored noise s ∧
      ∀ p ∈ tier3Scored noise s, p.2 ≤ q) ∧
    (∀ pick, getAiMove noise pick s =
      (tier3Candidates noise s).get? (pick % (tier3Candidates noise s).length)) := by
  have hinv := tier3_invariant noise s
  have hLne : tier3Scored noise s ≠ [] := tier3Scored_ne_nil hne
  cases hb : ((tier3Scored noise s).foldl advStep (none, [])).1 with
  | none => exact absurd (hinv.1 hb).1 hLne
  | some b =>
    obtain ⟨hcne, ⟨mstar, hmstar, hmstarmem⟩, hub, hcl⟩ := hinv.2 b hb
    have hcne' : tier3Candidates noise s ≠ [] := hcne
    refine ⟨hcne', tier3Candidates_subset noise s, ?_, ?_, ?_⟩
    · intro m hm
      obtain ⟨q, hq1, hq2⟩ := hcl m hm
      refine ⟨q, hq1, fun p hp => lt_of_le_of_lt (hub p hp) (by linarith)⟩
    · exact ⟨mstar, hmstar, b, hmstarmem, hub⟩
    · intro pick
      exact getAiMove_advanced noise pick s hd hne hcne'

/-- C9 (amended): in every state where `(boardIndex=4, cellIndex=4)` is
legal, wins sub-board 4, completes the meta-win, and — the condition the
counterexample forces — the opponent has no immediate winning cell in
sub-board 4 before the move, the Advanced-tier base score is exactly
100 + 10000 + 20 + 5 = 10125 (win + meta-win + center-board + center-cell),
in exact integer arithmetic before noise. Without the added condition the
block bonus (+80) and the danger penalty (−100) can fire, since the
destination of the move is sub-board 4 itself. -/
theorem c9_tier3_center_meta_score (s : GameState)
    (hmem : ((4, 4) : Move) ∈ getValidMoves s)
    (hwin : (checkSmallBoardStatus fun j =>
      if j = (4 : Fin 9) then some s.currentPlayer else s.board 4 j).winner =
      some s.currentPlayer)
    (hmeta : (checkGlobalWinner fun i =>
      if i = (4 : Fin 9) then
        checkSmallBoardStatus fun j =>
          if j = (4 : Fin 9) then some s.currentPlayer else s.board 4 j
      else s.smallBoardStatuses i).winner = some s.currentPlayer)
    (hnoblock : canWinBoard (s.board 4) s.currentPlayer.other = none) :
    evaluateMove s (4, 4) = 10125 := by
  obtain ⟨-, hw4, hd4, -, -⟩ := mem_getValidMoves.1 hmem
  have hw4' : (s.smallBoardStatuses 4).winner = none := hw4
  have hd4' : (s.smallBoardStatuses 4).isDraw = false := hd4
  dsimp only [evaluateMove]
  rw [if_pos hwin, if_pos hmeta, if_pos rfl, hnoblock]
  simp [hw4', hd4']

section Fixtures

/-- An all-empty small board. -/
def sbEmpty : SmallBoardState := fun _ => none

/-- A small board won by X across the top row. -/
def sbXRow : SmallBoardState :=
  ![some Player.X, some Player.X, some Player.X, none, none, none, none, none, none]

/-- Sub-board 4 for the C9 counterexample: X on the 0–8 diagonal ends (X
completes 0,4,8 by playing the center) while O holds 2 and 6 (O would
complete 2,4,6 with the same center cell). -/
def c9CexB4 : SmallBoardState :=
  ![some Player.X, none, some Player.O, none, none, none, some Player.O, none, some Player.X]

/-- Sub-board 4 for the C9 witness: X on the 0–8 diagonal ends, O on 2 and 5
— O has no one-move win. -/
def c9WitB4 : SmallBoardState :=
  ![some Player.X, none, some Player.O, none, none, some Player.O, none, none, some Player.X]

/-- C9 counterexample board: boards 1 and 7 already won by X (so winning
board 4 completes the 1–4–7 meta column), board 4 as in `c9CexB4`. -/
def c9CexBoard : GameBoardState :=
  ![sbEmpty, sbXRow, sbEmpty, sbEmpty, c9CexB4, sbEmpty, sbEmpty, sbXRow, sbEmpty]

/-- C9 witness board: like the counterexample board but with `c9WitB4`. -/
def c9WitBoard : GameBoardState :=
  ![sbEmpty, sbXRow, sbEmpty, sbEmpty, c9WitB4, sbEmpty, sbEmpty, sbXRow, sbEmpty]

/-- A consistent in-progress vs-CPU state over `b`: statuses recomputed from
the boards, X to move, forced board `nbi`. -/
def mkAiState (b : GameBoardState) (nbi : Option (Fin 9)) (diff : AiDifficulty) : GameState where
  board := b
  smallBoardStatuses := fun i => checkSmallBoardStatus (b i)
  currentPlayer := Player.X
  nextBoardIndex := nbi
  globalWinner := none
  isGlobalDraw := false
  history := []
  moveCount := 0
  gameMode := GameMode.PvCPU
  aiDifficulty := diff

/-- The C9 counterexample state. -/
def c9CexState : GameState := mkAiState c9CexBoard (some 4) AiDifficulty.Advanced

/-- The C9 witness state. -/
def c9WitState : GameState := mkAiState c9WitBoard (some 4) AiDifficulty.Advanced

/-- The C4 state: an empty board with the mover forced into board 0, so the
nine legal moves are the cells of board 0 with base scores
3,0,3,0,5,0,3,0,3 (corner/center cell bonuses only). -/
def c4AdvState : GameState := mkAiState (fun _ _ => none) (some 0) AiDifficulty.Advanced

/-- The C4 noise draws: 4.95 for the first move, 3 for the fifth, 0
otherwise — all within `[0,5)`. The noisy scores are then 7.95 for (0,0) and
8 for (0,4): (0,0) is within 0.1 of the maximum but is discarded when (0,4)
strictly improves the running best. -/
def c4Noise : Nat → ℚ := fun i => if i = 0 then 99 / 20 else if i = 4 then 3 else 0

/-- The C5 witness state: Intermediate tier, forced board 0 where X holds
cells 0 and 1 and so wins with cell 2. -/
def c5WitState : GameState :=
  mkAiState
    ![![some Player.X, some Player.X, none, none, none, none, none, none, none],
      sbEmpty, sbEmpty, sbEmpty, sbEmpty, sbEmpty, sbEmpty, sbEmpty, sbEmpty]
    (some 0) AiDifficulty.Intermediate

end Fixtures

unseal Rat.add Rat.mul Rat.inv Rat.sub in
/-- Counterexample to C4 as stated: in `c4AdvState` with noise `c4Noise`
(all draws within `[0,5)`), move (0,0) has noisy score within 0.1 of the
maximum noisy score — it belongs to the spec's within-0.1 set — yet the
implemented candidate list from which the AI draws is exactly `[(0,4)]`,
which excludes it; so the returned move is not drawn from exactly the
within-0.1-of-maximum set. -/
theorem c4_counterexample :
    tier3Candidates c4Noise c4AdvState = [(0, 4)] ∧
    specTier3TopSet c4Noise c4AdvState = [(0, 0), (0, 4)] ∧
    ((0, 0) : Move) ∈ specTier3TopSet c4Noise c4AdvState ∧
    ((0, 0) : Move) ∉ tier3Candidates c4Noise c4AdvState ∧
    (∀ i, 0 ≤ c4Noise i ∧ c4Noise i < 5) := by
  refine ⟨by decide, by decide, by decide, by decide, fun i => ?_⟩
  unfold c4Noise
  split
  · norm_num
  · split <;> norm_num

/-- Witness for C4 (amended) at the concrete counterexample input. -/
theorem c4_witness :
    tier3Candidates c4Noise c4AdvState ≠ [] ∧
    (∀ pick, getAiMove c4Noise pick c4AdvState =
      (tier3Candidates c4Noise c4AdvState).get?
        (pick % (tier3Candidates c4Noise c4AdvState).length)) :=
  ⟨(c4_tier3_selection c4Noise c4AdvState rfl (by decide)).1,
   (c4_tier3_selection c4Noise c4AdvState rfl (by decide)).2.2.2.2⟩

/-- Witness for C5 at a concrete state with an immediate winning move: the
Intermediate AI returns a legal move that wins its sub-board, for arbitrary
fixed random draws. -/
theorem c5_witness :
    ∃ m', getAiMove (fun _ => 0) 0 c5WitState = some m' ∧
      m' ∈ getValidMoves c5WitState ∧ winsSmallBoard c5WitState m' :=
  (c5_tier2_priority c5WitState rfl).1 (fun _ => 0) 0
    ⟨(0, 2), by decide, by decide⟩

/-- Counterexample to C9 as stated: `c9CexState` satisfies every premise of
the claim — (4,4) is legal, wins sub-board 4, and completes the meta-win —
yet the base score is 10105, not 100 + 10000 + 20 + 5 = 10125: O also
threatens to win sub-board 4 at the center, so the block bonus (+80) and the
sent-to-a-winnable-board penalty (−100) both fire. -/
theorem c9_counterexample :
    ((4, 4) : Move) ∈ getValidMoves c9CexState ∧
    (checkSmallBoardStatus fun j =>
      if j = (4 : Fin 9) then some c9CexState.currentPlayer
      else c9CexState.board 4 j).winner = some c9CexState.currentPlayer ∧
    (checkGlobalWinner fun i =>
      if i = (4 : Fin 9) then
        checkSmallBoardStatus fun j =>
          if j = (4 : Fin 9) then some c9CexState.currentPlayer
          else c9CexState.board 4 j
      else c9CexState.smallBoardStatuses i).winner = some c9CexState.currentPlayer ∧
    evaluateMove c9CexState (4, 4) = 10105 ∧ (10105 : Int) ≠ 10125 := by
  refine ⟨by decide, by decide, by decide, by decide, by decide⟩

/-- Witness for C9 (amended) at the concrete no-opponent-threat state. -/
theorem c9_witness : evaluateMove c9WitState (4, 4) = 10125 :=
  c9_tier3_center_meta_score c9WitState (by decide) (by decide) (by decide) (by decide)

/-- C10: whatever the difficulty tier and whatever the injected random
draws, whenever `getAiMove` returns a move, that move is an element of
`getValidMoves` for that state. -/
theorem c10_ai_moves_legal (noise : Nat → ℚ) (pick : Nat) (s : GameState)
    (m : Move) (h : getAiMove noise pick s = some m) : m ∈ getValidMoves s := by
  by_cases hne : getValidMoves s = []
  · rw [show getAiMove noise pick s = none from by
      simp only [getAiMove, hne]; rfl] at h
    exact absurd h (by simp)
  · have hE : (getValidMoves s).isEmpty = false := isEmpty_false_of_ne_nil hne
    cases hd : s.aiDifficulty with
    | Beginner =>
      simp only [getAiMove, hE, hd, Bool.false_eq_true, if_false] at h
      exact List.get?_mem h
    | Intermediate =>
      simp only [getAiMove, hE, hd, Bool.false_eq_true, if_false] at h
      cases h1 : (getValidMoves s).find?
          (fun x => decide (canWinBoard (s.board x.1) s.currentPlayer = some x.2)) with
      | some m1 =>
        rw [h1] at h
        obtain rfl : m1 = m := Option.some.inj h
        exact List.mem_of_find?_eq_some h1
      | none =>
        rw [h1] at h
        cases h2 : (getValidMoves s).find?
            (fun x => decide (canWinBoard (s.board x.1) s.currentPlayer.other = some x.2)) with
        | some m2 =>
          rw [h2] at h
          obtain rfl : m2 = m := Option.some.inj h
          exact List.mem_of_find?_eq_some h2
        | none =>
          rw [h2] at h
          exact List.get?_mem h
    | Advanced =>
      simp only [getAiMove, hE, hd, Bool.false_eq_true, if_false] at h
      cases hc : (tier3Candidates noise s).isEmpty with
      | true =>
        rw [hc] at h
        simp only [if_true] at h
        have : m ∈ getValidMoves s := by
          rcases List.head?_eq_some_iff.1 h with ⟨ys, hys⟩
          rw [hys]
          exact List.mem_cons_self m ys
        exact this
      | false =>
        rw [hc] at h
        simp only [Bool.false_eq_true, if_false] at h
        exact tier3Candidates_subset noise s m (List.get?_mem h)

/-- Witness for C10: the Beginner tier's first pick from the initial state
is a legal move. -/
theorem c10_witness : ((0, 0) : Move) ∈ getValidMoves initialGameState :=
  c10_ai_moves_legal (fun _ => 0) 0 initialGameState (0, 0) (by decide)

end UltimateTTT
